import Mathlib

/-!
Verification of the Progressive Mask Revelation Scheduler of
`src/utils/torch.py` (`dilate_mask`, `MaskUpdate`, and the dropout-based
thinning step inside `MaskUpdate.update`).

Modelling conventions:
* A mask (a `torch.Tensor` of shape `(channel, time, space)`) is embedded as a
  `MaskT`: an explicit shape together with a total valuation function on
  coordinates; only in-range coordinates are meaningful, and the mask
  predicates (`MaskEq`, `MaskLE`, `Binary`, `AllFalse`) quantify over the
  in-range box only.  We model the non-degenerate 3-D case, in which the
  `squeeze`/`reshape` pair inside `dilate_mask` is the identity.
* Tensor values are embedded as exact rationals `ℚ` (the source uses floats;
  every numeric fact proved below involves values on which binary floating
  point arithmetic is exact or rounds to the same result).
* The randomness consumed by `torch.nn.functional.dropout` is embedded as an
  explicit source `r : ℕ → ℕ → ℕ → ℚ` of per-coordinate uniform draws in
  `[0, 1)`; an element survives the dropout at rate `p` exactly when its draw
  is `< 1 - p`, and survivors are scaled by `1 / (1 - p)`.
* Python raising (`ZeroDivisionError` for `step = 0`, `ValueError` from
  `F.dropout` for a rate outside `[0, 1]`) is embedded as `Option`: `update`
  returns `none` on those paths.
-/

namespace DPI

/-- Source of per-coordinate uniform random draws consumed by the dropout. -/
abbrev RSrc := ℕ → ℕ → ℕ → ℚ

/-- All draws of a randomness source lie in `[0, 1)`, as uniform draws do. -/
def ValidR (r : RSrc) : Prop := ∀ i j k, 0 ≤ r i j k ∧ r i j k < 1

/-- A mask tensor of shape `(ch, nt, nx)` with rational sample values. -/
structure MaskT where
  ch : ℕ
  nt : ℕ
  nx : ℕ
  val : ℕ → ℕ → ℕ → ℚ

/-- The shape triple of a mask tensor. -/
def MaskT.shape (m : MaskT) : ℕ × ℕ × ℕ := (m.ch, m.nt, m.nx)

/-- Two masks have the same shape. -/
def SameShape (m1 m2 : MaskT) : Prop :=
  m1.ch = m2.ch ∧ m1.nt = m2.nt ∧ m1.nx = m2.nx

/-- Sample-for-sample equality of two masks (same shape, equal in-range values). -/
def MaskEq (m1 m2 : MaskT) : Prop :=
  SameShape m1 m2 ∧
    ∀ i < m1.ch, ∀ j < m1.nt, ∀ k < m1.nx, m1.val i j k = m2.val i j k

/-- Sample-wise subset of masks: same shape and pointwise `≤` on in-range
values (for 0/1-valued masks this is exactly set inclusion of revealed
samples). -/
def MaskLE (m1 m2 : MaskT) : Prop :=
  SameShape m1 m2 ∧
    ∀ i < m1.ch, ∀ j < m1.nt, ∀ k < m1.nx, m1.val i j k ≤ m2.val i j k

/-- A mask is boolean: every in-range sample is `0` or `1`. -/
def Binary (m : MaskT) : Prop :=
  ∀ i < m.ch, ∀ j < m.nt, ∀ k < m.nx, m.val i j k = 0 ∨ m.val i j k = 1

/-- Every in-range sample of the mask is `0` (an all-`false` mask). -/
def AllFalse (m : MaskT) : Prop :=
  ∀ i < m.ch, ∀ j < m.nt, ∀ k < m.nx, m.val i j k = 0

/-- Embedding of `numpy`'s `astype(np.uint8)` applied to a float sample
(`m = mask_np[i].astype(np.uint8)` in `dilate_mask`, torch.py:204):
truncation toward zero followed by the 8-bit wrap-around.  On the 0/1-valued
masks flowing through the scheduler it is the identity. -/
def qToU8 (v : ℚ) : ℕ := ((v.num.tdiv (v.den : ℤ)) % 256).toNat

/-- Read a `uint8` plane at integer coordinates, with `cv2.dilate`'s implicit
zero border outside the `nt × nx` box. -/
def planeAt (nt nx : ℕ) (p : ℕ → ℕ → ℕ) (j k : ℤ) : ℕ :=
  if 0 ≤ j ∧ j < (nt : ℤ) ∧ 0 ≤ k ∧ k < (nx : ℤ) then p j.toNat k.toNat else 0

/-- One pass of `cv2.dilate` with the fixed all-ones `2 × 2` kernel
(`kernel = np.ones((2, 2), np.uint8)`, torch.py:196) on a `uint8` plane:
each output sample is the maximum of the sample itself and its three
up/left neighbours (the kernel anchored at its centre), out-of-plane
reads being the zero border. -/
def dilStep (nt nx : ℕ) (p : ℕ → ℕ → ℕ) : ℕ → ℕ → ℕ := fun j k =>
  max (max (planeAt nt nx p (j : ℤ) (k : ℤ)) (planeAt nt nx p ((j : ℤ) - 1) (k : ℤ)))
      (max (planeAt nt nx p (j : ℤ) ((k : ℤ) - 1)) (planeAt nt nx p ((j : ℤ) - 1) ((k : ℤ) - 1)))

/-- Embedding of `dilate_mask(mask, iterations)` (torch.py:195-208): each
leading-axis slice is converted to `uint8`, dilated `iterations` times by the
`2 × 2` all-ones kernel, and the result is cast back to the input dtype; the
output is a fresh tensor of the input's shape (the input itself is cloned
first and never mutated). -/
def dilate_mask (iterations : ℕ) (m : MaskT) : MaskT :=
  { ch := m.ch, nt := m.nt, nx := m.nx,
    val := fun i j k =>
      ((((dilStep m.nt m.nx)^[iterations] (fun a b => qToU8 (m.val i a b))) j k : ℕ) : ℚ) }

/-- Elementwise tensor subtraction `m1 - m2` (`self.new_mask - self.old_mask`,
torch.py:237); the result carries `m1`'s shape (the operands always share it
at the call sites). -/
def maskSub (m1 m2 : MaskT) : MaskT :=
  ⟨m1.ch, m1.nt, m1.nx, fun i j k => m1.val i j k - m2.val i j k⟩

/-- Elementwise tensor addition `m1 + m2` (`self.old_mask + mask_add`,
torch.py:240). -/
def maskAdd (m1 m2 : MaskT) : MaskT :=
  ⟨m1.ch, m1.nt, m1.nx, fun i j k => m1.val i j k + m2.val i j k⟩

/-- Embedding of `torch.nn.functional.dropout(x, p)` in training mode
(torch.py:237): each element independently survives when its uniform draw is
`< 1 - p` (probability `1 - p`) and is then scaled by `1 / (1 - p)`;
otherwise it is zeroed. -/
def dropoutM (p : ℚ) (r : RSrc) (m : MaskT) : MaskT :=
  ⟨m.ch, m.nt, m.nx, fun i j k =>
    if r i j k < 1 - p then m.val i j k / (1 - p) else 0⟩

/-- Embedding of the re-binarisation `mask_add[mask_add != 0] = 1`
(torch.py:238): nonzero samples become `1`, zero samples stay `0`. -/
def binarizeM (m : MaskT) : MaskT :=
  ⟨m.ch, m.nt, m.nx, fun i j k => if m.val i j k = 0 then 0 else 1⟩

/-- The Stochastic Thinner as the source composes it (torch.py:237-238):
dropout at rate `frac` followed by re-binarisation.  Note that `frac` is the
*drop* rate of `F.dropout`: the scheduler passes its computed `p` directly as
this argument. -/
def thin (delta : MaskT) (frac : ℚ) (r : RSrc) : MaskT :=
  binarizeM (dropoutM frac r delta)

/-- The intra-epoch offset `iter_drop = (iiter - self.threshold) % self.step`
(torch.py:235), with Python's floor-convention `%`. -/
def iter_drop (threshold step iiter : ℤ) : ℤ := (iiter - threshold).fmod step

/-- The dropout rate `p = 1. - 1. / self.step * (iter_drop + 1)`
(torch.py:236). -/
def drop_p (threshold step iiter : ℤ) : ℚ :=
  1 - 1 / (step : ℚ) * ((iter_drop threshold step iiter : ℚ) + 1)

/-- State of the `MaskUpdate` scheduler (torch.py:219-225), fields in the
order `__init__` assigns them. -/
structure MaskUpdate where
  threshold : ℤ
  step : ℤ
  iter : ℤ
  new_mask : MaskT
  old_mask : MaskT

/-- Embedding of `MaskUpdate.__init__(mask, threshold, step)`
(torch.py:220-225): the parameters are stored as given — the constructor
performs no validation whatsoever — and `iter = 0`,
`new_mask = old_mask = mask`. -/
def MaskUpdate.init (mask : MaskT) (threshold step : ℤ) : MaskUpdate :=
  ⟨threshold, step, 0, mask, mask⟩

/-- The growth block of `MaskUpdate.update` (torch.py:230-234): when the
target epoch `iiter_dil = (iiter - self.threshold) // self.step + 1` exceeds
the stored counter, commit `old_mask ← new_mask`, grow
`new_mask ← dilate_mask(old_mask)` (one dilation pass), and record the epoch;
otherwise leave the state untouched. -/
def MaskUpdate.grow (s : MaskUpdate) (iiter : ℤ) : MaskUpdate :=
  if (iiter - s.threshold).fdiv s.step + 1 > s.iter then
    { s with old_mask := s.new_mask,
             new_mask := dilate_mask 1 s.new_mask,
             iter := (iiter - s.threshold).fdiv s.step + 1 }
  else s

/-- Embedding of `MaskUpdate.update(iiter)` (torch.py:227-241).  Returns the
effective mask together with the post-call state.  `none` models a Python
exception: the `ZeroDivisionError` of `(iiter - threshold) // step` when
`step = 0`, and the `ValueError` `F.dropout` raises when its rate lies
outside `[0, 1]` (possible only for a negative `step`).  On the warm-up path
(`iiter ≤ threshold`) the stored `old_mask` is returned and nothing is
touched; otherwise the effective mask `old_mask + thin(new_mask - old_mask)`
is computed fresh on every call and never written back into the state. -/
def MaskUpdate.update (s : MaskUpdate) (iiter : ℤ) (r : RSrc) :
    Option (MaskT × MaskUpdate) :=
  if iiter > s.threshold then
    if s.step = 0 then none
    else
      if 0 ≤ drop_p s.threshold s.step iiter ∧ drop_p s.threshold s.step iiter ≤ 1 then
        some (maskAdd (s.grow iiter).old_mask
                (thin (maskSub (s.grow iiter).new_mask (s.grow iiter).old_mask)
                  (drop_p s.threshold s.step iiter) r),
              s.grow iiter)
      else none
  else some (s.old_mask, s)

/-- Run a sequence of `update` calls (each with its own randomness), keeping
only the evolving scheduler state; any raising call aborts the run. -/
def runUpdates (s : MaskUpdate) (calls : List (ℤ × RSrc)) : Option MaskUpdate :=
  List.foldlM (fun st c => Option.map Prod.snd (MaskUpdate.update st c.1 c.2)) s calls

/-- Concrete 1×1×1 all-ones mask used as a test vector. -/
def d1 : MaskT := ⟨1, 1, 1, fun _ _ _ => 1⟩

/-- Concrete 1×1×2 mask with only sample 0 revealed. -/
def mOld : MaskT := ⟨1, 1, 2, fun _ _ k => if k = 0 then 1 else 0⟩

/-- Concrete 1×1×2 all-ones mask. -/
def mNew : MaskT := ⟨1, 1, 2, fun _ _ _ => 1⟩

/-- Constant randomness source drawing `1/2` everywhere. -/
def rHalf : RSrc := fun _ _ _ => 1/2

/-- Constant randomness source drawing `0` everywhere. -/
def rZero : RSrc := fun _ _ _ => 0

/-! ### Arithmetic and control-path lemmas for `MaskUpdate.update` -/

lemma iter_drop_nonneg (t st i : ℤ) (hst : 0 < st) : 0 ≤ iter_drop t st i :=
  Int.fmod_nonneg' _ hst

lemma iter_drop_lt (t st i : ℤ) (hst : 0 < st) : iter_drop t st i < st :=
  Int.fmod_lt_of_pos _ hst

lemma drop_p_bounds (t st i : ℤ) (hst : 0 < st) :
    0 ≤ drop_p t st i ∧ drop_p t st i < 1 := by
  have h0 := iter_drop_nonneg t st i hst
  have h1 := iter_drop_lt t st i hst
  unfold drop_p
  constructor
  · rw [one_div_mul_eq_div, sub_nonneg, div_le_one (by exact_mod_cast hst)]
    have h2 : iter_drop t st i + 1 ≤ st := by omega
    exact_mod_cast h2
  · rw [one_div_mul_eq_div, sub_lt_self_iff]
    apply div_pos
    · have h2 : (0 : ℤ) < iter_drop t st i + 1 := by omega
      exact_mod_cast h2
    · exact_mod_cast hst

lemma grow_of_le {s : MaskUpdate} {i : ℤ}
    (h : (i - s.threshold).fdiv s.step + 1 ≤ s.iter) : s.grow i = s := by
  unfold MaskUpdate.grow
  rw [if_neg (by omega)]

lemma grow_of_lt {s : MaskUpdate} {i : ℤ}
    (h : s.iter < (i - s.threshold).fdiv s.step + 1) :
    s.grow i = { s with old_mask := s.new_mask,
                        new_mask := dilate_mask 1 s.new_mask,
                        iter := (i - s.threshold).fdiv s.step + 1 } := by
  unfold MaskUpdate.grow
  rw [if_pos (by omega)]

lemma grow_threshold (s : MaskUpdate) (i : ℤ) : (s.grow i).threshold = s.threshold := by
  unfold MaskUpdate.grow
  split <;> rfl

lemma grow_step (s : MaskUpdate) (i : ℤ) : (s.grow i).step = s.step := by
  unfold MaskUpdate.grow
  split <;> rfl

lemma grow_iter_le (s : MaskUpdate) (i : ℤ) : s.iter ≤ (s.grow i).iter := by
  unfold MaskUpdate.grow
  split
  · next h => exact le_of_lt h
  · exact le_refl _

lemma update_warmup {s : MaskUpdate} {i : ℤ} (r : RSrc) (h : ¬ s.threshold < i) :
    s.update i r = some (s.old_mask, s) := by
  unfold MaskUpdate.update
  rw [if_neg h]

lemma update_eq_grow {s : MaskUpdate} {i : ℤ} (r : RSrc)
    (hi : s.threshold < i) (hst : 0 < s.step) :
    s.update i r =
      some (maskAdd (s.grow i).old_mask
              (thin (maskSub (s.grow i).new_mask (s.grow i).old_mask)
                (drop_p s.threshold s.step i) r),
            s.grow i) := by
  unfold MaskUpdate.update
  rw [if_pos hi, if_neg (by omega : ¬ s.step = 0),
      if_pos ⟨(drop_p_bounds _ _ i hst).1, le_of_lt (drop_p_bounds _ _ i hst).2⟩]

lemma update_state {s s2 : MaskUpdate} {i : ℤ} {r : RSrc} {m : MaskT}
    (h : s.update i r = some (m, s2)) : s2 = s ∨ s2 = s.grow i := by
  by_cases hi : s.threshold < i
  · by_cases hst : s.step = 0
    · unfold MaskUpdate.update at h
      rw [if_pos hi, if_pos hst] at h
      simp at h
    · unfold MaskUpdate.update at h
      rw [if_pos hi, if_neg hst] at h
      split at h
      · simp only [Option.some.injEq, Prod.mk.injEq] at h
        exact Or.inr h.2.symm
      · simp at h
  · rw [update_warmup r hi] at h
    simp only [Option.some.injEq, Prod.mk.injEq] at h
    exact Or.inl h.2.symm

lemma update_iter_mono {s s2 : MaskUpdate} {i : ℤ} {r : RSrc} {m : MaskT}
    (h : s.update i r = some (m, s2)) : s.iter ≤ s2.iter := by
  rcases update_state h with h1 | h1
  · rw [h1]
  · rw [h1]
    exact grow_iter_le s i

lemma update_params {s s2 : MaskUpdate} {i : ℤ} {r : RSrc} {m : MaskT}
    (h : s.update i r = some (m, s2)) :
    s2.threshold = s.threshold ∧ s2.step = s.step := by
  rcases update_state h with h1 | h1
  · rw [h1]
    exact ⟨rfl, rfl⟩
  · rw [h1]
    exact ⟨grow_threshold s i, grow_step s i⟩

/-! ### Lemmas about the Stochastic Thinner -/

lemma thin_shape (delta : MaskT) (f : ℚ) (r : RSrc) : SameShape (thin delta f r) delta :=
  ⟨rfl, rfl, rfl⟩

lemma thin_val_cases (delta : MaskT) (f : ℚ) (r : RSrc) (i j k : ℕ) :
    (thin delta f r).val i j k = 0 ∨ (thin delta f r).val i j k = 1 := by
  dsimp [thin, binarizeM]
  split
  · exact Or.inl rfl
  · exact Or.inr rfl

lemma thin_val_of_zero (delta : MaskT) (f : ℚ) (r : RSrc) (i j k : ℕ)
    (h : delta.val i j k = 0) : (thin delta f r).val i j k = 0 := by
  dsimp [thin, binarizeM, dropoutM]
  rw [h, zero_div, ite_self, if_pos rfl]

lemma thin_le (delta : MaskT) (f : ℚ) (r : RSrc) (hb : Binary delta) :
    MaskLE (thin delta f r) delta := by
  refine ⟨thin_shape delta f r, ?_⟩
  intro i hi j hj k hk
  rcases hb i hi j hj k hk with h | h
  · rw [thin_val_of_zero delta f r i j k h, h]
  · rw [h]
    rcases thin_val_cases delta f r i j k with h2 | h2
    · rw [h2]
      norm_num
    · rw [h2]

lemma thin_zero_eq (delta : MaskT) (r : RSrc) (hb : Binary delta) (hr : ValidR r) :
    MaskEq (thin delta 0 r) delta := by
  refine ⟨thin_shape delta 0 r, ?_⟩
  intro i hi j hj k hk
  dsimp [thin, binarizeM, dropoutM]
  rw [sub_zero, if_pos (hr i j k).2, div_one]
  rcases hb i hi j hj k hk with h | h
  · rw [h, if_pos rfl]
  · rw [h, if_neg one_ne_zero]

lemma thin_one_allfalse (delta : MaskT) (r : RSrc) (hr : ValidR r) :
    AllFalse (thin delta 1 r) := by
  intro i hi j hj k hk
  dsimp [thin, binarizeM, dropoutM]
  rw [sub_self, if_neg (not_lt.mpr (hr i j k).1), if_pos rfl]

lemma sub_binary {o n : MaskT} (hbo : Binary o) (hbn : Binary n) (hle : MaskLE o n) :
    Binary (maskSub n o) := by
  obtain ⟨⟨hc, ht, hx⟩, hlev⟩ := hle
  intro i hi j hj k hk
  have hio : i < o.ch := by rw [hc]; exact hi
  have hjo : j < o.nt := by rw [ht]; exact hj
  have hko : k < o.nx := by rw [hx]; exact hk
  dsimp [maskSub]
  rcases hbo i hio j hjo k hko with h1 | h1
  · rcases hbn i hi j hj k hk with h2 | h2
    · rw [h2, h1, sub_zero]
      exact Or.inl rfl
    · rw [h2, h1, sub_zero]
      exact Or.inr rfl
  · rcases hbn i hi j hj k hk with h2 | h2
    · have hcon := hlev i hio j hjo k hko
      rw [h1, h2] at hcon
      norm_num at hcon
    · rw [h2, h1, sub_self]
      exact Or.inl rfl

lemma add_thin_zero_eq_new {o n : MaskT} (r : RSrc)
    (hbo : Binary o) (hbn : Binary n) (hle : MaskLE o n) (hr : ValidR r) :
    MaskEq (maskAdd o (thin (maskSub n o) 0 r)) n := by
  have hbd := sub_binary hbo hbn hle
  obtain ⟨⟨hc, ht, hx⟩, hlev⟩ := hle
  refine ⟨⟨hc, ht, hx⟩, ?_⟩
  intro i hi j hj k hk
  have hin : i < n.ch := by rw [← hc]; exact hi
  have hjn : j < n.nt := by rw [← ht]; exact hj
  have hkn : k < n.nx := by rw [← hx]; exact hk
  have hth := (thin_zero_eq (maskSub n o) r hbd hr).2 i hin j hjn k hkn
  dsimp [maskAdd]
  rw [hth]
  dsimp [maskSub]
  ring

/-! ### Lemmas about the Morphological Grower -/

lemma planeAt_le_one {nt nx : ℕ} {p : ℕ → ℕ → ℕ}
    (hp : ∀ j < nt, ∀ k < nx, p j k ≤ 1) (j k : ℤ) : planeAt nt nx p j k ≤ 1 := by
  unfold planeAt
  split
  · next h => exact hp j.toNat (by omega) k.toNat (by omega)
  · exact Nat.zero_le 1

lemma dilStep_le_one {nt nx : ℕ} {p : ℕ → ℕ → ℕ}
    (hp : ∀ j < nt, ∀ k < nx, p j k ≤ 1) (j k : ℕ) : dilStep nt nx p j k ≤ 1 := by
  unfold dilStep
  exact max_le (max_le (planeAt_le_one hp _ _) (planeAt_le_one hp _ _))
               (max_le (planeAt_le_one hp _ _) (planeAt_le_one hp _ _))

lemma dilIter_le_one {nt nx : ℕ} {p : ℕ → ℕ → ℕ}
    (hp : ∀ j < nt, ∀ k < nx, p j k ≤ 1) :
    ∀ n, ∀ j < nt, ∀ k < nx, ((dilStep nt nx)^[n] p) j k ≤ 1 := by
  intro n
  induction n with
  | zero => exact hp
  | succ n ih =>
    intro j hj k hk
    rw [Function.iterate_succ_apply']
    exact dilStep_le_one (fun a ha b hb => ih a ha b hb) j k

lemma dilate_binary (n : ℕ) {m : MaskT} (hb : Binary m) : Binary (dilate_mask n m) := by
  intro i hi j hj k hk
  have hp : ∀ a < m.nt, ∀ b < m.nx, qToU8 (m.val i a b) ≤ 1 := by
    intro a ha b hbx
    rcases hb i hi a ha b hbx with h | h
    · rw [h]
      decide
    · rw [h]
      decide
  dsimp [dilate_mask]
  rcases Nat.le_one_iff_eq_zero_or_eq_one.mp (dilIter_le_one hp n j hj k hk) with h | h
  · rw [h]
    exact Or.inl Nat.cast_zero
  · rw [h]
    exact Or.inr Nat.cast_one

lemma dilate_extensive {m : MaskT} (hb : Binary m) : MaskLE m (dilate_mask 1 m) := by
  refine ⟨⟨rfl, rfl, rfl⟩, ?_⟩
  intro i hi j hj k hk
  dsimp [dilate_mask]
  rcases hb i hi j hj k hk with h | h
  · rw [h]
    exact Nat.cast_nonneg _
  · rw [h]
    have hself : planeAt m.nt m.nx (fun a b => qToU8 (m.val i a b)) (j : ℤ) (k : ℤ)
        = qToU8 (m.val i j k) := by
      unfold planeAt
      rw [if_pos (by omega)]
      simp
    have h1 : 1 ≤ dilStep m.nt m.nx (fun a b => qToU8 (m.val i a b)) j k := by
      unfold dilStep
      refine le_trans ?_ (le_max_left _ _)
      refine le_trans ?_ (le_max_left _ _)
      rw [hself, h]
      decide
    exact_mod_cast Nat.one_le_cast.mpr h1

/-! ### Scheduler state invariant -/

/-- Both stored masks are boolean and `old_mask` is a sample-wise subset of
`new_mask` (invariant I1, strengthened with the 0/1-valuedness that the
source maintains). -/
def GoodS (s : MaskUpdate) : Prop :=
  Binary s.old_mask ∧ Binary s.new_mask ∧ MaskLE s.old_mask s.new_mask

lemma grow_good {s : MaskUpdate} (h : GoodS s) (i : ℤ) : GoodS (s.grow i) := by
  obtain ⟨hbo, hbn, hle⟩ := h
  unfold MaskUpdate.grow
  split
  · exact ⟨hbn, dilate_binary 1 hbn, dilate_extensive hbn⟩
  · exact ⟨hbo, hbn, hle⟩

lemma update_good {s s2 : MaskUpdate} {i : ℤ} {r : RSrc} {m : MaskT}
    (h : GoodS s) (hu : s.update i r = some (m, s2)) : GoodS s2 := by
  rcases update_state hu with h1 | h1
  · rw [h1]
    exact h
  · rw [h1]
    exact grow_good h i

lemma run_good : ∀ (calls : List (ℤ × RSrc)) (s s' : MaskUpdate),
    GoodS s → runUpdates s calls = some s' → GoodS s' := by
  intro calls
  induction calls with
  | nil =>
    intro s s' hg h
    unfold runUpdates at h
    rw [List.foldlM_nil] at h
    simp only [Option.pure_def, Option.some.injEq] at h
    rw [← h]
    exact hg
  | cons c cs ih =>
    intro s s' hg h
    unfold runUpdates at h
    rw [List.foldlM_cons] at h
    cases hu : MaskUpdate.update s c.1 c.2 with
    | none =>
      rw [hu] at h
      simp at h
    | some ms =>
      obtain ⟨mm, s2⟩ := ms
      rw [hu] at h
      simp only [Option.map_some', Option.bind_eq_bind, Option.some_bind] at h
      exact ih s2 s' (update_good hg hu) h

/-! ### Epoch counter lemmas -/

/-- The epoch value invariant I2 predicts after `update(i)`:
`(i - threshold) // step + 1` when `i > threshold`, else `0`. -/
def epochOf (t st i : ℤ) : ℤ := if t < i then (i - t).fdiv st + 1 else 0

lemma epochOf_pos_ge_one {t st i : ℤ} (hst : 0 < st) (hi : t < i) :
    1 ≤ epochOf t st i := by
  unfold epochOf
  rw [if_pos hi]
  have h : 0 ≤ (i - t).fdiv st := by
    rw [Int.fdiv_eq_ediv _ (le_of_lt hst)]
    exact Int.ediv_nonneg (by omega) (le_of_lt hst)
  omega

lemma epochOf_mono (t st : ℤ) (hst : 0 < st) {j i : ℤ} (h : j ≤ i) :
    epochOf t st j ≤ epochOf t st i := by
  by_cases hj : t < j
  · unfold epochOf
    rw [if_pos hj, if_pos (by omega)]
    have h2 := Int.ediv_le_ediv hst (show j - t ≤ i - t by omega)
    rw [Int.fdiv_eq_ediv _ (le_of_lt hst), Int.fdiv_eq_ediv _ (le_of_lt hst)]
    omega
  · by_cases hi2 : t < i
    · unfold epochOf
      rw [if_neg hj, if_pos hi2]
      have h0 : 0 ≤ (i - t).fdiv st := by
        rw [Int.fdiv_eq_ediv _ (le_of_lt hst)]
        exact Int.ediv_nonneg (by omega) (le_of_lt hst)
      omega
    · unfold epochOf
      rw [if_neg hj, if_neg hi2]

lemma update_iter_eq {s s2 : MaskUpdate} {i : ℤ} {r : RSrc} {m : MaskT}
    (hst : 0 < s.step)
    (hpre : s.iter = 0 ∨ ∃ j, j ≤ i ∧ s.iter = epochOf s.threshold s.step j)
    (h : s.update i r = some (m, s2)) :
    s2.iter = epochOf s.threshold s.step i := by
  by_cases hi : s.threshold < i
  · rw [update_eq_grow r hi hst] at h
    simp only [Option.some.injEq, Prod.mk.injEq] at h
    rw [← h.2]
    have htgt : epochOf s.threshold s.step i = (i - s.threshold).fdiv s.step + 1 := by
      unfold epochOf
      rw [if_pos hi]
    by_cases hg : s.iter < (i - s.threshold).fdiv s.step + 1
    · rw [grow_of_lt hg, htgt]
    · rw [grow_of_le (by omega)]
      have hle : s.iter ≤ (i - s.threshold).fdiv s.step + 1 := by
        rcases hpre with h0 | ⟨j, hji, hj⟩
        · have h1 := epochOf_pos_ge_one hst hi
          rw [htgt] at h1
          omega
        · have h2 := epochOf_mono s.threshold s.step hst hji
          rw [htgt] at h2
          omega
      rw [htgt]
      omega
  · rw [update_warmup r hi] at h
    simp only [Option.some.injEq, Prod.mk.injEq] at h
    rw [← h.2]
    unfold epochOf
    rw [if_neg hi]
    rcases hpre with h0 | ⟨j, hji, hj⟩
    · exact h0
    · rw [hj]
      unfold epochOf
      rw [if_neg (by omega)]

lemma run_iter_sorted :
    ∀ (cs : List (ℤ × RSrc)) (c clast : ℤ × RSrc) (s s' : MaskUpdate),
    0 < s.step →
    List.Sorted (fun a b => a ≤ b) ((c :: cs).map Prod.fst) →
    (s.iter = 0 ∨ ∃ j, j ≤ c.1 ∧ s.iter = epochOf s.threshold s.step j) →
    (c :: cs).getLast? = some clast →
    runUpdates s (c :: cs) = some s' →
    s'.iter = epochOf s.threshold s.step clast.1 := by
  intro cs
  induction cs with
  | nil =>
    intro c clast s s' hst hsort hpre hlast hrun
    simp only [List.getLast?_singleton, Option.some.injEq] at hlast
    unfold runUpdates at hrun
    rw [List.foldlM_cons] at hrun
    cases hu : MaskUpdate.update s c.1 c.2 with
    | none =>
      rw [hu] at hrun
      simp at hrun
    | some ms =>
      obtain ⟨mm, s2⟩ := ms
      rw [hu] at hrun
      simp only [Option.map_some', Option.bind_eq_bind, Option.some_bind,
        List.foldlM_nil, Option.pure_def, Option.some.injEq] at hrun
      rw [← hrun, ← hlast]
      exact update_iter_eq hst hpre hu
  | cons c2 cs ih =>
    intro c clast s s' hst hsort hpre hlast hrun
    unfold runUpdates at hrun
    rw [List.foldlM_cons] at hrun
    cases hu : MaskUpdate.update s c.1 c.2 with
    | none =>
      rw [hu] at hrun
      simp at hrun
    | some ms =>
      obtain ⟨mm, s2⟩ := ms
      rw [hu] at hrun
      simp only [Option.map_some', Option.bind_eq_bind, Option.some_bind] at hrun
      have hparams := update_params hu
      have hstep2 : 0 < s2.step := by
        rw [hparams.2]
        exact hst
      have hsort2 : List.Sorted (fun a b => a ≤ b) ((c2 :: cs).map Prod.fst) := by
        rw [List.map_cons, List.sorted_cons] at hsort
        exact hsort.2
      have hc12 : c.1 ≤ c2.1 := by
        rw [List.map_cons, List.sorted_cons] at hsort
        exact hsort.1 c2.1 (by simp)
      have hiter2 : s2.iter = epochOf s.threshold s.step c.1 :=
        update_iter_eq hst hpre hu
      have hpre2 : s2.iter = 0 ∨
          ∃ j, j ≤ c2.1 ∧ s2.iter = epochOf s2.threshold s2.step j := by
        right
        exact ⟨c.1, hc12, by rw [hiter2, hparams.1, hparams.2]⟩
      have hlast2 : (c2 :: cs).getLast? = some clast := by
        rw [List.getLast?_cons_cons] at hlast
        exact hlast
      have hres := ih c2 clast s2 s' hstep2 hsort2 hpre2 hlast2 hrun
      rw [hparams.1, hparams.2] at hres
      exact hres

/-! ### Further shared lemmas -/

lemma maskLE_refl (m : MaskT) : MaskLE m m :=
  ⟨⟨rfl, rfl, rfl⟩, fun _ _ _ _ _ _ => le_refl _⟩

lemma maskLE_trans {a b c : MaskT} (h1 : MaskLE a b) (h2 : MaskLE b c) :
    MaskLE a c := by
  obtain ⟨⟨hc1, ht1, hx1⟩, hv1⟩ := h1
  obtain ⟨⟨hc2, ht2, hx2⟩, hv2⟩ := h2
  refine ⟨⟨hc1.trans hc2, ht1.trans ht2, hx1.trans hx2⟩, ?_⟩
  intro i hi j hj k hk
  exact le_trans (hv1 i hi j hj k hk)
    (hv2 i (hc1 ▸ hi) j (ht1 ▸ hj) k (hx1 ▸ hk))

lemma add_thin_good {o n : MaskT} (f : ℚ) (r : RSrc)
    (hbo : Binary o) (hbn : Binary n) (hle : MaskLE o n) :
    Binary (maskAdd o (thin (maskSub n o) f r)) ∧
      MaskLE o (maskAdd o (thin (maskSub n o) f r)) ∧
      MaskLE (maskAdd o (thin (maskSub n o) f r)) n := by
  have hbd := sub_binary hbo hbn hle
  have hthle := thin_le (maskSub n o) f r hbd
  obtain ⟨⟨hc, ht, hx⟩, hlev⟩ := hle
  refine ⟨?_, ⟨⟨rfl, rfl, rfl⟩, ?_⟩, ⟨⟨hc, ht, hx⟩, ?_⟩⟩
  · intro i hi j hj k hk
    have hin : i < n.ch := hc ▸ hi
    have hjn : j < n.nt := ht ▸ hj
    have hkn : k < n.nx := hx ▸ hk
    dsimp [maskAdd]
    rcases hbo i hi j hj k hk with h1 | h1
    · rw [h1, zero_add]
      exact thin_val_cases (maskSub n o) f r i j k
    · rcases hbn i hin j hjn k hkn with h2 | h2
      · have hcon := hlev i hi j hj k hk
        rw [h1, h2] at hcon
        norm_num at hcon
      · have hz : (maskSub n o).val i j k = 0 := by
          dsimp [maskSub]
          rw [h1, h2, sub_self]
        rw [h1, thin_val_of_zero (maskSub n o) f r i j k hz, add_zero]
        exact Or.inr rfl
  · intro i hi j hj k hk
    dsimp [maskAdd]
    rcases thin_val_cases (maskSub n o) f r i j k with h2 | h2
    · rw [h2, add_zero]
    · rw [h2]
      norm_num
  · intro i hi j hj k hk
    have hin : i < n.ch := hc ▸ hi
    have hjn : j < n.nt := ht ▸ hj
    have hkn : k < n.nx := hx ▸ hk
    dsimp [maskAdd]
    have hth := hthle.2 i hin j hjn k hkn
    dsimp [maskSub] at hth
    -- o.val + thin.val ≤ o.val + (n.val - o.val) = n.val
    have := add_le_add_left hth (o.val i j k)
    calc o.val i j k + (thin (maskSub n o) f r).val i j k
        ≤ o.val i j k + (n.val i j k - o.val i j k) := this
      _ = n.val i j k := by ring

/-! ### Concrete test vectors -/

lemma validR_rHalf : ValidR rHalf :=
  fun _ _ _ => ⟨by norm_num [rHalf], by norm_num [rHalf]⟩

lemma validR_rZero : ValidR rZero :=
  fun _ _ _ => ⟨le_refl 0, by norm_num [rZero]⟩

lemma binary_d1 : Binary d1 := fun _ _ _ _ _ _ => Or.inr rfl

lemma binary_mOld : Binary mOld := by
  intro i hi j hj k hk
  dsimp [mOld]
  by_cases h : k = 0
  · rw [if_pos h]
    exact Or.inr rfl
  · rw [if_neg h]
    exact Or.inl rfl

lemma binary_mNew : Binary mNew := fun _ _ _ _ _ _ => Or.inr rfl

lemma le_mOld_mNew : MaskLE mOld mNew := by
  refine ⟨⟨rfl, rfl, rfl⟩, ?_⟩
  intro i hi j hj k hk
  dsimp [mOld, mNew]
  by_cases h : k = 0
  · rw [if_pos h]
  · rw [if_neg h]
    norm_num

/-- Concrete scheduler state in the middle of epoch 1 of the end-to-end
scenario: `threshold = 10`, `step = 5`, `epoch = 1`, `old ⊂ new`. -/
def sW2 : MaskUpdate := ⟨10, 5, 1, mNew, mOld⟩

/-! ### Claim theorems -/

/-- C1 counterexample: the scheduler passes `reveal_fraction` directly as the
drop rate of `F.dropout`, so with fraction `1` the thinner deletes the whole
delta instead of returning it unchanged, and with fraction `0` it returns the
delta instead of an all-`false` array — the claim's two endpoint laws are
swapped on the code. -/
theorem c1_thin_endpoints_counterexample :
    ¬ MaskEq (thin d1 1 rHalf) d1 ∧ MaskEq (thin d1 0 rHalf) d1 ∧
      ¬ AllFalse (thin d1 0 rHalf) := by
  refine ⟨?_, thin_zero_eq d1 rHalf binary_d1 validR_rHalf, ?_⟩
  · intro hc
    have h := hc.2 0 Nat.one_pos 0 Nat.one_pos 0 Nat.one_pos
    have h0 := thin_one_allfalse d1 rHalf validR_rHalf 0 Nat.one_pos 0 Nat.one_pos 0 Nat.one_pos
    rw [h0] at h
    norm_num [d1] at h
  · intro haf
    have h := haf 0 Nat.one_pos 0 Nat.one_pos 0 Nat.one_pos
    have h2 := (thin_zero_eq d1 rHalf binary_d1 validR_rHalf).2 0 Nat.one_pos 0 Nat.one_pos 0 Nat.one_pos
    rw [h] at h2
    norm_num [d1] at h2

/-- C1 (amended): for every boolean `delta`, every fraction `f ∈ [0, 1]` and
valid uniform draws, `thin(delta, f)` is a sample-wise subset of `delta`;
with `f = 0` the output equals `delta` exactly, and with `f = 1` the output
is all-`false`.  This corrects the claim by reading the fraction as the drop
rate the source actually passes to `F.dropout`, which swaps the claim's two
endpoint laws. -/
theorem c1_thin_subset_endpoints (delta : MaskT) (f : ℚ) (r : RSrc)
    (hb : Binary delta) (hr : ValidR r) (_hf0 : 0 ≤ f) (_hf1 : f ≤ 1) :
    MaskLE (thin delta f r) delta ∧
      (f = 0 → MaskEq (thin delta f r) delta) ∧
      (f = 1 → AllFalse (thin delta f r)) := by
  refine ⟨thin_le delta f r hb, ?_, ?_⟩
  · intro hf
    rw [hf]
    exact thin_zero_eq delta r hb hr
  · intro hf
    rw [hf]
    exact thin_one_allfalse delta r hr

/-- C1 witness: the amended theorem applied to the concrete all-ones 1×1×1
delta with fraction `0`. -/
theorem c1_thin_subset_endpoints_witness :
    MaskLE (thin d1 0 rHalf) d1 ∧ MaskEq (thin d1 0 rHalf) d1 := by
  have h := c1_thin_subset_endpoints d1 0 rHalf binary_d1 validR_rHalf
    (le_refl 0) (by norm_num)
  exact ⟨h.1, h.2.1 rfl⟩

/-- C2 counterexample: with `threshold = 10`, `step = 5`, the code computes
offset `(15 - 10) % 5 = 0` (not `4`) and dropout rate `4/5` (not `0`) at
iteration `15`. -/
theorem c2_scenario_counterexample :
    iter_drop 10 5 15 = 0 ∧ iter_drop 10 5 15 ≠ 4 ∧
      drop_p 10 5 15 = 4/5 ∧ drop_p 10 5 15 ≠ 0 := by
  refine ⟨by decide, by decide, ?_, ?_⟩
  · norm_num [drop_p, iter_drop]
  · norm_num [drop_p, iter_drop]

/-- C2 (amended): in the scenario `threshold = 10`, `step = 5`, the call
`update(15)` computes offset `0` and dropout rate `4/5` (crossing into epoch
2); offset `4` with rate `0` instead occurs at `update(14)`, and a rate-`0`
call reveals the entire delta: on any epoch-1 state with boolean
`old ⊆ new` masks, `update(14)` returns a mask equal to `new_mask` — not
`old_mask` — and leaves the state unchanged. -/
theorem c2_scenario_amended (s : MaskUpdate) (r : RSrc)
    (ht : s.threshold = 10) (hst : s.step = 5) (hit : s.iter = 1)
    (hbo : Binary s.old_mask) (hbn : Binary s.new_mask)
    (hle : MaskLE s.old_mask s.new_mask) (hr : ValidR r) :
    iter_drop 10 5 15 = 0 ∧ drop_p 10 5 15 = 4/5 ∧
      iter_drop 10 5 14 = 4 ∧ drop_p 10 5 14 = 0 ∧
      ∃ m, s.update 14 r = some (m, s) ∧ MaskEq m s.new_mask := by
  refine ⟨by decide, by norm_num [drop_p, iter_drop], by decide,
    by norm_num [drop_p, iter_drop, show Int.fmod 4 5 = 4 from by decide], ?_⟩
  have hgrow : s.grow 14 = s := by
    apply grow_of_le
    rw [ht, hst, hit]
    decide
  have hupd := update_eq_grow (s := s) (i := 14) r (by omega) (by omega)
  rw [hgrow] at hupd
  have hdp : drop_p s.threshold s.step 14 = 0 := by
    rw [ht, hst]
    norm_num [drop_p, iter_drop, show Int.fmod 4 5 = 4 from by decide]
  rw [hdp] at hupd
  exact ⟨_, hupd, add_thin_zero_eq_new r hbo hbn hle hr⟩

/-- C2 witness: the amended theorem applied to the concrete epoch-1 state
`sW2`. -/
theorem c2_scenario_amended_witness :
    iter_drop 10 5 15 = 0 ∧ drop_p 10 5 15 = 4/5 ∧
      iter_drop 10 5 14 = 4 ∧ drop_p 10 5 14 = 0 ∧
      ∃ m, sW2.update 14 rHalf = some (m, sW2) ∧ MaskEq m sW2.new_mask :=
  c2_scenario_amended sW2 rHalf rfl rfl rfl binary_mOld binary_mNew
    le_mOld_mNew validR_rHalf

/-- C3: warm-up identity — for every `iteration ≤ threshold`, `update`
returns exactly the stored `old_mask` and the state (`old_mask`, `new_mask`,
`epoch`) unchanged; the result does not mention the randomness source, so no
randomness is consumed. -/
theorem c3_warmup_identity (s : MaskUpdate) (iiter : ℤ) (r : RSrc)
    (h : iiter ≤ s.threshold) :
    s.update iiter r = some (s.old_mask, s) :=
  update_warmup r (not_lt.mpr h)

/-- C3 witness: a warm-up call at iteration 7 with threshold 10. -/
theorem c3_warmup_identity_witness :
    MaskUpdate.update (MaskUpdate.init d1 10 5) 7 rHalf =
      some (d1, MaskUpdate.init d1 10 5) :=
  c3_warmup_identity (MaskUpdate.init d1 10 5) 7 rHalf (by decide)

/-- C4: invariant I1 — starting from an initial state with
`old_mask = new_mask` a boolean mask, after every successful sequence of
`update` calls the stored `old_mask` is a sample-wise subset of the stored
`new_mask` (dilation is extensive on boolean masks). -/
theorem c4_subset_invariant (m0 : MaskT) (t st : ℤ) (calls : List (ℤ × RSrc))
    (s' : MaskUpdate) (hb : Binary m0)
    (hrun : runUpdates (MaskUpdate.init m0 t st) calls = some s') :
    MaskLE s'.old_mask s'.new_mask := by
  have hg : GoodS (MaskUpdate.init m0 t st) := ⟨hb, hb, maskLE_refl m0⟩
  exact (run_good calls _ s' hg hrun).2.2

/-- C4 witness: one growth call from a freshly initialised scheduler. -/
theorem c4_subset_invariant_witness :
    MaskLE ((MaskUpdate.init d1 10 5).grow 11).old_mask
           ((MaskUpdate.init d1 10 5).grow 11).new_mask := by
  apply c4_subset_invariant d1 10 5 [(11, rHalf)] _ binary_d1
  unfold runUpdates
  simp only [List.foldlM_cons, List.foldlM_nil]
  rw [update_eq_grow rHalf (by decide) (by decide)]
  rfl

/-- C5: invariant I2 — (a) after any successful run of `update` calls issued
with nondecreasing iterations from a freshly initialised scheduler with
positive `step`, the epoch counter equals `(i - threshold) // step + 1` if
`i > threshold` and `0` otherwise, `i` being the last iteration (this is
`epochOf`); and (b) no single `update` call, in any order, ever decreases the
epoch counter. -/
theorem c5_epoch_counter (t st : ℤ) (hst : 0 < st) :
    (∀ (m0 : MaskT) (calls : List (ℤ × RSrc)) (clast : ℤ × RSrc)
        (s' : MaskUpdate),
        List.Sorted (fun a b => a ≤ b) (calls.map Prod.fst) →
        calls.getLast? = some clast →
        runUpdates (MaskUpdate.init m0 t st) calls = some s' →
        s'.iter = epochOf t st clast.1) ∧
    (∀ (s s2 : MaskUpdate) (i : ℤ) (r : RSrc) (m : MaskT),
        s.update i r = some (m, s2) → s.iter ≤ s2.iter) := by
  constructor
  · intro m0 calls clast s' hsort hlast hrun
    cases calls with
    | nil => simp at hlast
    | cons c cs =>
      exact run_iter_sorted cs c clast (MaskUpdate.init m0 t st) s' hst hsort
        (Or.inl rfl) hlast hrun
  · intro s s2 i r m h
    exact update_iter_mono h

/-- C5 witness: a single growth call at iteration 12 (`epoch` becomes
`(12 - 10) // 5 + 1 = 1`) and its monotonicity instance. -/
theorem c5_epoch_counter_witness :
    ((MaskUpdate.init d1 10 5).grow 12).iter = epochOf 10 5 12 ∧
      (MaskUpdate.init d1 10 5).iter ≤ ((MaskUpdate.init d1 10 5).grow 12).iter := by
  have hc := c5_epoch_counter 10 5 (by decide)
  constructor
  · apply hc.1 d1 [(12, rHalf)] (12, rHalf) _ (List.sorted_singleton _) rfl
    unfold runUpdates
    simp only [List.foldlM_cons, List.foldlM_nil]
    rw [update_eq_grow rHalf (by decide) (by decide)]
    rfl
  · exact hc.2 (MaskUpdate.init d1 10 5) _ 12 rHalf _
      (update_eq_grow rHalf (by decide) (by decide))

/-- C6: frame property / I4 — on a call whose target epoch does not exceed
the stored epoch counter, the grower is not invoked and the state
(`old_mask`, `new_mask`, `epoch`) is returned unchanged; the effective mask
is recomputed from the stored masks on every call and never written back, so
growth can happen at most once per epoch boundary. -/
theorem c6_no_growth_frame (s : MaskUpdate) (i : ℤ) (r : RSrc)
    (hi : s.threshold < i) (hst : 0 < s.step)
    (hin : (i - s.threshold).fdiv s.step + 1 ≤ s.iter) :
    s.update i r =
      some (maskAdd s.old_mask
              (thin (maskSub s.new_mask s.old_mask)
                (drop_p s.threshold s.step i) r),
            s) := by
  rw [update_eq_grow r hi hst, grow_of_le hin]

/-- C6 witness: an intra-epoch call (iteration 12, epoch already 1). -/
theorem c6_no_growth_frame_witness :
    sW2.update 12 rHalf =
      some (maskAdd sW2.old_mask
              (thin (maskSub sW2.new_mask sW2.old_mask) (drop_p 10 5 12) rHalf),
            sW2) :=
  c6_no_growth_frame sW2 12 rHalf (by decide) (by decide) (by decide)

/-- C7 counterexample: the constructor accepts `step = 0` without complaint,
and the resulting scheduler hits the division by zero on the first `update`
call past the threshold — rejection does not happen at construction time. -/
theorem c7_step_zero_counterexample :
    (MaskUpdate.init d1 10 0).step = 0 ∧
      MaskUpdate.update (MaskUpdate.init d1 10 0) 11 rHalf = none :=
  ⟨rfl, rfl⟩

/-- C7 (amended): the constructor performs no validation — every `mask`,
`threshold` and `step` (including `step = 0` and negative thresholds) is
stored as given and construction always succeeds; with `step = 0` the
division-by-zero failure surfaces at the first `update` call with
`iteration > threshold`, which raises instead of returning a mask. -/
theorem c7_no_construction_validation (mask : MaskT) (t i : ℤ) (r : RSrc)
    (hi : t < i) :
    MaskUpdate.init mask t 0 = ⟨t, 0, 0, mask, mask⟩ ∧
      MaskUpdate.update (MaskUpdate.init mask t 0) i r = none := by
  refine ⟨rfl, ?_⟩
  unfold MaskUpdate.update
  rw [if_pos (show i > (MaskUpdate.init mask t 0).threshold from hi),
      if_pos (show (MaskUpdate.init mask t 0).step = 0 from rfl)]

/-- C7 witness: a concrete `step = 0` construction followed by `update(12)`. -/
theorem c7_no_construction_validation_witness :
    MaskUpdate.init d1 10 0 = ⟨10, 0, 0, d1, d1⟩ ∧
      MaskUpdate.update (MaskUpdate.init d1 10 0) 12 rHalf = none :=
  c7_no_construction_validation d1 10 12 rHalf (by decide)

/-- C8 counterexample: `update(-3)` is accepted silently and returns the
stored mask — there is no invalid-argument failure and a mask is returned. -/
theorem c8_negative_iteration_counterexample :
    MaskUpdate.update (MaskUpdate.init d1 10 5) (-3) rHalf =
      some (d1, MaskUpdate.init d1 10 5) :=
  rfl

/-- C8 (amended): a negative iteration is not rejected: whenever
`threshold ≥ 0`, a call `update(i)` with `i < 0` falls into the warm-up
branch and silently returns `old_mask` with the state unchanged. -/
theorem c8_negative_iteration_accepted (s : MaskUpdate) (i : ℤ) (r : RSrc)
    (ht : 0 ≤ s.threshold) (hi : i < 0) :
    s.update i r = some (s.old_mask, s) :=
  update_warmup r (by omega)

/-- C8 witness: a concrete negative-iteration call. -/
theorem c8_negative_iteration_accepted_witness :
    MaskUpdate.update (MaskUpdate.init d1 10 5) (-7) rHalf =
      some (d1, MaskUpdate.init d1 10 5) :=
  c8_negative_iteration_accepted (MaskUpdate.init d1 10 5) (-7) rHalf
    (by decide) (by decide)

/-- C9: the grower returns a fresh mask of the same shape as its input for
every iteration count (the embedding is a pure function because the source
clones the input tensor before touching it, so the argument is never
mutated), and on boolean input the output is again boolean — the observable
content of dtype preservation through the `uint8` round-trip. -/
theorem c9_grow_shape_preservation (m : MaskT) (n : ℕ) :
    (dilate_mask n m).shape = m.shape ∧ SameShape (dilate_mask n m) m ∧
      (Binary m → Binary (dilate_mask n m)) :=
  ⟨rfl, ⟨rfl, rfl, rfl⟩, fun hb => dilate_binary n hb⟩

/-- C9 witness: shape preservation and 0/1-preservation on a concrete mask. -/
theorem c9_grow_shape_preservation_witness :
    (dilate_mask 1 mOld).shape = mOld.shape ∧ Binary (dilate_mask 1 mOld) :=
  ⟨(c9_grow_shape_preservation mOld 1).1,
    (c9_grow_shape_preservation mOld 1).2.2 binary_mOld⟩

/-- C10: for any call past the threshold on a valid state (boolean masks,
`old ⊆ new`) with positive `step` and valid draws, the returned effective
mask is boolean — the `1/(1-p)` dropout scaling is erased by the
re-binarisation before the mask is returned — and lies between the
scheduler's current (post-growth) `old_mask` and `new_mask`; it also
contains the pre-call `old_mask`. -/
theorem c10_effective_mask_bounds (s : MaskUpdate) (i : ℤ) (r : RSrc)
    (hbo : Binary s.old_mask) (hbn : Binary s.new_mask)
    (hle : MaskLE s.old_mask s.new_mask)
    (hi : s.threshold < i) (hst : 0 < s.step) (_hr : ValidR r) :
    ∃ m, s.update i r = some (m, s.grow i) ∧ Binary m ∧
      MaskLE s.old_mask m ∧ MaskLE (s.grow i).old_mask m ∧
      MaskLE m (s.grow i).new_mask := by
  have hg := grow_good ⟨hbo, hbn, hle⟩ i
  have hprop := add_thin_good (drop_p s.threshold s.step i) r hg.1 hg.2.1 hg.2.2
  have hog : MaskLE s.old_mask (s.grow i).old_mask := by
    unfold MaskUpdate.grow
    split
    · exact hle
    · exact maskLE_refl _
  exact ⟨_, update_eq_grow r hi hst, hprop.1,
    maskLE_trans hog hprop.2.1, hprop.2.1, hprop.2.2⟩

/-- C10 witness: the bounds at the concrete epoch-1 state `sW2`,
iteration 12. -/
theorem c10_effective_mask_bounds_witness :
    ∃ m, sW2.update 12 rHalf = some (m, sW2.grow 12) ∧ Binary m ∧
      MaskLE sW2.old_mask m ∧ MaskLE (sW2.grow 12).old_mask m ∧
      MaskLE m (sW2.grow 12).new_mask :=
  c10_effective_mask_bounds sW2 12 rHalf binary_mOld binary_mNew le_mOld_mNew
    (by decide) (by decide) validR_rHalf

end DPI
